import Mathlib

/-
Shallow embedding of the bevy-save-manager persistence core
(src/save.rs and src/setting.rs).

Paths (Rust `PathBuf`) are modelled as lists of path components;
`PathBuf::join` with a relative right operand appends components.
The slot table (Rust `HashMap<u32, PathBuf>`) is modelled as an
association list with the usual get/insert/remove operations; `u32`
arithmetic is modelled on `Nat` with an explicit `% 2^32` where the
code can overflow (the `max_key + 1` allocation in `save`).
Filesystem and codec effects (`save_to`, `load_from`, `fs::remove_file`)
are fallible black boxes from the core's point of view: each request
handler takes the outcome of its single fallible step as a `Bool`
(or an `Option` carrying the parsed value), exactly at the point where
the Rust code branches on `if let Err(_e) = ...`.
-/

set_option autoImplicit false

/-- A filesystem path as a list of components (models `PathBuf`). -/
abbrev FsPath := List String

/-- The slot table: association list from slot id to stored relative path
(models `HashMap<u32, PathBuf>` in `SaveConfig.saves`). -/
abbrev SlotTable := List (Nat × FsPath)

/-- `2^32`, the modulus of `u32` arithmetic. -/
def U32MOD : Nat := 4294967296

/-- Lookup (models `HashMap::get`). -/
def tableGet : SlotTable → Nat → Option FsPath
  | [], _ => none
  | (k, v) :: t, i => if k = i then some v else tableGet t i

/-- Remove all entries with the given key (models `HashMap::remove`;
with unique keys at most one entry is removed). -/
def tableRemove : SlotTable → Nat → SlotTable
  | [], _ => []
  | (k, v) :: t, i => if k = i then tableRemove t i else (k, v) :: tableRemove t i

/-- Insert, replacing any existing binding (models `HashMap::insert`). -/
def tableInsert (t : SlotTable) (i : Nat) (v : FsPath) : SlotTable :=
  (i, v) :: tableRemove t i

/-- The keys of the table (models `HashMap::keys`). -/
def tableKeys (t : SlotTable) : List Nat :=
  t.map (fun p => p.1)

/-- Maximum of a list of naturals, `none` on the empty list
(models `Iterator::max` on `keys()`). -/
def listMax? : List Nat → Option Nat
  | [] => none
  | a :: l =>
    match listMax? l with
    | none => some a
    | some b => some (max a b)

/-- The in-memory state the save systems mutate: `SaveConfig`
(fields `saves`, `save_dir`, `last_saved`) together with the
`CurrentSave` resource. -/
structure SaveState where
  saves : SlotTable
  save_dir : FsPath
  last_saved : Nat
  current_save : Nat
  deriving DecidableEq, Repr

/-- `save_dir.join(rel)` for a relative stored path (models `PathBuf::join`). -/
def resolvePath (s : SaveState) (rel : FsPath) : FsPath :=
  s.save_dir ++ rel

/-- The full path `load` reads for slot `id`
(save.rs line 108: `save_config.save_dir.join(saved_path)`). -/
def loadTarget (s : SaveState) (id : Nat) : Option FsPath :=
  (tableGet s.saves id).map (resolvePath s)

/-- The full path the `save` re-save branch writes for slot `id`
(save.rs line 161: `save_config.save_dir.join(saved_path)`). -/
def saveTarget (s : SaveState) (id : Nat) : Option FsPath :=
  (tableGet s.saves id).map (resolvePath s)

/-- The path `delete` passes to `fs::remove_file` for slot `id`
(save.rs lines 180-181): the stored path itself, NOT joined with
`save_dir`. -/
def deleteTarget (s : SaveState) (id : Nat) : Option FsPath :=
  tableGet s.saves id

/-- The fresh slot id allocated by the `save` id == 0 branch
(save.rs line 153): `max_key + 1` in `u32` arithmetic, or `1` when the
table is empty. -/
def allocId (t : SlotTable) : Nat :=
  match listMax? (tableKeys t) with
  | some m => (m + 1) % U32MOD
  | none => 1

/-- One `SaveGame` message processed by `save::<T>` (save.rs lines 143-171).
`file_name` is the generated 12-char random `.dat` name for the id == 0
branch; `writeOk` is the result of `data.save_to(...)` (encode + encrypt;
the physical write is fire-and-forget). Returns the new state and whether
`GameSettingChanged` was emitted. -/
def saveStep (s : SaveState) (save_id : Nat) (file_name : FsPath) (writeOk : Bool) :
    SaveState × Bool :=
  if save_id = 0 then
    if writeOk then
      let new_key := allocId s.saves
      ({ s with saves := tableInsert s.saves new_key file_name,
                last_saved := new_key, current_save := new_key }, true)
    else (s, false)
  else
    match tableGet s.saves save_id with
    | some _ =>
      if writeOk then
        ({ s with last_saved := save_id, current_save := save_id }, false)
      else (s, false)
    | none => (s, false)

/-- One `LoadGame` message processed by `load::<T>` (save.rs lines 106-116).
`loadOk` is the result of `data.load_from(...)` (read + decrypt + decode). -/
def loadStep (s : SaveState) (id : Nat) (loadOk : Bool) : SaveState :=
  match tableGet s.saves id with
  | some _ => if loadOk then { s with current_save := id } else s
  | none => s

/-- One `LoadRecent` message processed by `load_recent::<T>`
(save.rs lines 119-132). -/
def loadRecentStep (s : SaveState) (loadOk : Bool) : SaveState :=
  match tableGet s.saves s.last_saved with
  | some _ => if loadOk then { s with current_save := s.last_saved } else s
  | none => s

/-- One `DeleteSave` message processed by `delete` (save.rs lines 179-192).
`removeOk` is the result of `fs::remove_file(saved_path)`. -/
def deleteStep (s : SaveState) (id : Nat) (removeOk : Bool) : SaveState :=
  match tableGet s.saves id with
  | some _ =>
    if removeOk then
      { s with saves := tableRemove s.saves id,
               current_save := 0,
               last_saved := if s.last_saved = id then 0 else s.last_saved }
    else s
  | none => s

/-- A run of successful `Save(0)` requests, one per generated file name. -/
def saveZeroRun (s : SaveState) : List FsPath → SaveState
  | [] => s
  | f :: fs => saveZeroRun (saveStep s 0 f true).1 fs

/-- The descending key list `[n, n-1, ..., 1]`: the exact key set produced
by `n` successful fresh saves from an empty table. -/
def descKeys : Nat → List Nat
  | 0 => []
  | n + 1 => (n + 1) :: descKeys n

/-- All keys of the table are positive (as a boolean check). -/
def keysPos (t : SlotTable) : Bool :=
  (tableKeys t).all (fun k => decide (0 < k))

/-- All keys of the table are below `u32::MAX` (as a boolean check). -/
def keysBounded (t : SlotTable) : Bool :=
  (tableKeys t).all (fun k => decide (k < U32MOD - 1))

/-- The codec pipeline of the `EncryptSave` trait (save.rs lines 195-220),
with the external crates abstracted exactly as the spec prescribes:
`ser`/`deser` are bincode's `encode_to_vec`/`decode_from_slice`
(a black-box bytes <-> struct mapping) and `encr`/`decr` are
simple_crypt's `encrypt`/`decrypt` at the fixed key `ENCR_KEY`
(a black-box symmetric cipher); each may fail. -/
structure Codec (S B : Type) where
  ser : S → Option B
  deser : B → Option S
  encr : B → Option B
  decr : B → Option B

/-- The byte blob `save_to` writes for a state: serialize then encrypt
(save.rs lines 205-207). -/
def save_encode {S B : Type} (c : Codec S B) (s : S) : Option B :=
  (c.ser s).bind c.encr

/-- The state `load_from` reconstructs from a file's bytes: decrypt then
deserialize (save.rs lines 198-203). -/
def load_decode {S B : Type} (c : Codec S B) (b : B) : Option S :=
  (c.decr b).bind c.deser

/-- A concrete codec instance on naturals used to exercise the pipeline:
serialization wraps the value in a singleton list, encryption reverses
the list. -/
def natCodec : Codec Nat (List Nat) where
  ser := fun n => some [n]
  deser := fun b => match b with | [n] => some n | _ => none
  encr := fun b => some b.reverse
  decr := fun b => some b.reverse

/-- The `load_config::<T>` startup system (setting.rs lines 57-71).
`current` is the in-memory record (inserted as `T::default()` by the
plugin before startup); `parseResult` abstracts `File::open` +
`from_reader`: `some v` when the settings file was opened and parsed as
`v`, `none` on any failure including a missing file. Returns the record
after the system runs and whether `GameSettingLoaded` was emitted; the
error branch only logs, so the function is total (no panic). -/
def load_config {T : Type} (current : T) (parseResult : Option T) : T × Bool :=
  match parseResult with
  | some v => (v, true)
  | none => (current, false)

/-- A state with an empty slot table (all other fields at their defaults). -/
def emptyState : SaveState :=
  { saves := [], save_dir := [], last_saved := 0, current_save := 0 }

/-- Failing input for the delete-path claim: `save_dir = "saves"` and
slot 1 stored as `"abc.dat"`. -/
def st1 : SaveState :=
  { saves := [(1, ["abc.dat"])], save_dir := ["saves"], last_saved := 0,
    current_save := 0 }

/-- Witness state for the delete claim: slots 2 and 7, pointers at 7. -/
def st4 : SaveState :=
  { saves := [(2, ["a.dat"]), (7, ["b.dat"])], save_dir := ["saves"],
    last_saved := 7, current_save := 7 }

/-- Witness state with a single slot 5. -/
def st5 : SaveState :=
  { saves := [(5, ["p.dat"])], save_dir := [], last_saved := 1,
    current_save := 2 }

/-- Counterexample state for the load-pointer claim: slot 5 present and
`current_save` already 5 before the request. -/
def cex6 : SaveState :=
  { saves := [(5, ["p.dat"])], save_dir := [], last_saved := 5,
    current_save := 5 }

/-- Counterexample state for the key-positivity claim: the single key is
`u32::MAX`, which is positive. -/
def cex10 : SaveState :=
  { saves := [(4294967295, ["old.dat"])], save_dir := [], last_saved := 0,
    current_save := 0 }

/-- Witness state for the invariant-preservation claim. -/
def st10 : SaveState :=
  { saves := [(3, ["a.dat"])], save_dir := [], last_saved := 3,
    current_save := 3 }

/-- The state reached from an empty table by `u32::MAX` (= 2^32 - 1)
successful `Save(0)` requests: the point just before the allocation
counter wraps. -/
def overflowPre : SaveState :=
  saveZeroRun emptyState (List.replicate (U32MOD - 1) ["s.dat"])

theorem tableKeys_cons (k : Nat) (v : FsPath) (t : SlotTable) :
    tableKeys ((k, v) :: t) = k :: tableKeys t := rfl

theorem listMax?_cons (a : Nat) (l : List Nat) :
    listMax? (a :: l) =
      match listMax? l with
      | none => some a
      | some b => some (max a b) := rfl

theorem tableKeys_eq_nil {t : SlotTable} (h : tableKeys t = []) : t = [] := by
  cases t with
  | nil => rfl
  | cons p t => simp [tableKeys] at h

theorem tableRemove_not_mem {t : SlotTable} {i : Nat} (h : i ∉ tableKeys t) :
    tableRemove t i = t := by
  induction t with
  | nil => rfl
  | cons p t ih =>
    obtain ⟨k, v⟩ := p
    simp only [tableKeys, List.map_cons, List.mem_cons, not_or] at h
    simp only [tableRemove, if_neg (fun hk : k = i => h.1 hk.symm)]
    exact congrArg _ (ih (by simpa [tableKeys] using h.2))

theorem tableGet_eq_none {t : SlotTable} {i : Nat} (h : i ∉ tableKeys t) :
    tableGet t i = none := by
  induction t with
  | nil => rfl
  | cons p t ih =>
    obtain ⟨k, v⟩ := p
    simp only [tableKeys, List.map_cons, List.mem_cons, not_or] at h
    simp only [tableGet, if_neg (fun hk : k = i => h.1 hk.symm)]
    exact ih (by simpa [tableKeys] using h.2)

theorem tableGet_remove_self (t : SlotTable) (i : Nat) :
    tableGet (tableRemove t i) i = none := by
  induction t with
  | nil => rfl
  | cons p t ih =>
    obtain ⟨k, v⟩ := p
    by_cases hk : k = i
    · simpa [tableRemove, hk] using ih
    · simpa [tableRemove, hk, tableGet] using ih

theorem tableGet_insert_self (t : SlotTable) (i : Nat) (v : FsPath) :
    tableGet (tableInsert t i v) i = some v := by
  simp [tableInsert, tableGet]

theorem tableKeys_remove_sub {t : SlotTable} {i k : Nat}
    (h : k ∈ tableKeys (tableRemove t i)) : k ∈ tableKeys t := by
  induction t with
  | nil => simpa [tableRemove] using h
  | cons p t ih =>
    obtain ⟨a, v⟩ := p
    by_cases ha : a = i
    · rw [show tableRemove ((a, v) :: t) i = tableRemove t i by
        simp [tableRemove, ha]] at h
      exact List.mem_cons_of_mem _ (ih h)
    · rw [show tableRemove ((a, v) :: t) i = (a, v) :: tableRemove t i by
        simp [tableRemove, ha], tableKeys_cons] at h
      rw [tableKeys_cons]
      rcases List.mem_cons.mp h with h | h
      · exact List.mem_cons.mpr (Or.inl h)
      · exact List.mem_cons.mpr (Or.inr (ih h))

theorem listMax?_mem : ∀ {l : List Nat} {m : Nat}, listMax? l = some m → m ∈ l
  | [], _, h => by simp [listMax?] at h
  | a :: l, m, h => by
    simp only [listMax?] at h
    cases hl : listMax? l with
    | none =>
      rw [hl] at h
      simp only [Option.some.injEq] at h
      simp [← h]
    | some b =>
      rw [hl] at h
      simp only [Option.some.injEq] at h
      rcases Nat.le_total a b with hab | hab
      · have : m = b := by omega
        exact List.mem_cons_of_mem _ (this ▸ listMax?_mem hl)
      · have : m = a := by omega
        simp [this]

theorem descKeys_le : ∀ {n x : Nat}, x ∈ descKeys n → x ≤ n
  | 0, _, h => by simp [descKeys] at h
  | n + 1, x, h => by
    simp only [descKeys, List.mem_cons] at h
    rcases h with h | h
    · omega
    · have := descKeys_le h
      omega

theorem descKeys_pos : ∀ {n x : Nat}, x ∈ descKeys n → 0 < x
  | 0, _, h => by simp [descKeys] at h
  | n + 1, x, h => by
    simp only [descKeys, List.mem_cons] at h
    rcases h with h | h
    · omega
    · exact descKeys_pos h

theorem descKeys_nodup : ∀ n : Nat, (descKeys n).Nodup
  | 0 => List.nodup_nil
  | n + 1 => by
    simp only [descKeys, List.nodup_cons]
    exact ⟨fun h => by have := descKeys_le h; omega, descKeys_nodup n⟩

theorem descKeys_length : ∀ n : Nat, (descKeys n).length = n
  | 0 => rfl
  | n + 1 => by simp [descKeys, descKeys_length n]

theorem listMax?_descKeys : ∀ n : Nat, listMax? (descKeys (n + 1)) = some (n + 1)
  | 0 => rfl
  | n + 1 => by
    rw [show descKeys (n + 1 + 1) = (n + 1 + 1) :: descKeys (n + 1) from rfl,
      listMax?_cons, listMax?_descKeys n]
    exact congrArg some (max_eq_left (by omega))

theorem loadStep_saves (s : SaveState) (id : Nat) (ok : Bool) :
    (loadStep s id ok).saves = s.saves := by
  unfold loadStep
  cases tableGet s.saves id with
  | none => rfl
  | some p => cases ok <;> rfl

theorem loadRecentStep_saves (s : SaveState) (ok : Bool) :
    (loadRecentStep s ok).saves = s.saves := by
  unfold loadRecentStep
  cases tableGet s.saves s.last_saved with
  | none => rfl
  | some p => cases ok <;> rfl

theorem keysPos_iff {t : SlotTable} :
    keysPos t = true ↔ ∀ k ∈ tableKeys t, 0 < k := by
  simp [keysPos, List.all_eq_true]

theorem keysBounded_iff {t : SlotTable} :
    keysBounded t = true ↔ ∀ k ∈ tableKeys t, k < U32MOD - 1 := by
  simp [keysBounded, List.all_eq_true]

theorem keysPos_remove {t : SlotTable} {i : Nat} (h : keysPos t = true) :
    keysPos (tableRemove t i) = true := by
  rw [keysPos_iff] at h ⊢
  exact fun k hk => h k (tableKeys_remove_sub hk)

theorem allocId_pos {t : SlotTable} (h : keysBounded t = true) : 0 < allocId t := by
  unfold allocId
  cases hm : listMax? (tableKeys t) with
  | none => exact Nat.one_pos
  | some m =>
    have hmem := listMax?_mem hm
    have hlt := (keysBounded_iff.mp h) m hmem
    have : (m + 1) % U32MOD = m + 1 := Nat.mod_eq_of_lt (by omega)
    simp [this]

theorem allocId_descKeys {t : SlotTable} {k : Nat}
    (hk : tableKeys t = descKeys k) (hb : k + 1 < U32MOD) :
    allocId t = k + 1 := by
  unfold allocId
  rw [hk]
  cases k with
  | zero => rfl
  | succ j =>
    rw [listMax?_descKeys j]
    simpa using Nat.mod_eq_of_lt hb

theorem saveStep_zero_keys {s : SaveState} {k : Nat} (f : FsPath)
    (hk : tableKeys s.saves = descKeys k) (hb : k + 1 < U32MOD) :
    tableKeys ((saveStep s 0 f true).1).saves = descKeys (k + 1) := by
  have hnotmem : (k + 1) ∉ tableKeys s.saves := by
    rw [hk]
    intro hmem
    have := descKeys_le hmem
    omega
  have hstep : ((saveStep s 0 f true).1).saves =
      tableInsert s.saves (allocId s.saves) f := rfl
  rw [hstep, allocId_descKeys hk hb, tableInsert,
    tableRemove_not_mem hnotmem, tableKeys_cons, hk]
  rfl

theorem run_keys : ∀ (files : List FsPath) (s : SaveState) (k : Nat),
    tableKeys s.saves = descKeys k → k + files.length < U32MOD →
    tableKeys (saveZeroRun s files).saves = descKeys (k + files.length)
  | [], s, k, hk, _ => by simpa [saveZeroRun] using hk
  | f :: fs, s, k, hk, hb => by
    simp only [List.length_cons] at hb
    have hstep := saveStep_zero_keys f hk (by omega)
    have := run_keys fs (saveStep s 0 f true).1 (k + 1) hstep (by omega)
    simpa [saveZeroRun, Nat.add_assoc, Nat.add_comm 1 fs.length] using this

theorem allocId_of_max {t : SlotTable} {m : Nat}
    (h : listMax? (tableKeys t) = some m) :
    allocId t = (m + 1) % U32MOD := by
  unfold allocId
  rw [h]

theorem saveStep_zero_saves (s : SaveState) (f : FsPath) :
    ((saveStep s 0 f true).1).saves = tableInsert s.saves (allocId s.saves) f := rfl

/-- Claim C1: the claim states that Delete(id) removes the file at
save_directory joined with the stored slot path — the same full path Save
and Load resolve. The code contradicts this (and its own write location):
`delete` passes the stored path to `fs::remove_file` without joining
`save_dir`, so with `save_dir = "saves"` and slot 1 stored as `"abc.dat"`
it removes `"abc.dat"` while Save and Load use `"saves/abc.dat"`. -/
theorem delete_removes_unjoined_path :
    deleteTarget st1 1 = some ["abc.dat"] ∧
    saveTarget st1 1 = some ["saves", "abc.dat"] ∧
    loadTarget st1 1 = some ["saves", "abc.dat"] ∧
    deleteTarget st1 1 ≠ saveTarget st1 1 ∧
    deleteTarget st1 1 ≠ loadTarget st1 1 := by
  refine ⟨rfl, rfl, rfl, ?_, ?_⟩ <;>
  · intro h
    have h' : (["abc.dat"] : FsPath) = ["saves", "abc.dat"] :=
      Option.some_injective _ h
    have hlen := congrArg List.length h'
    simp at hlen

/-- Claim C2 (counterexample): after 2^32 - 1 successful Save(0) requests
from an empty table the maximum key is u32::MAX = 2^32 - 1, and the next
(2^32-th) successful Save(0) allocates slot id `(max + 1) % 2^32 = 0`,
not max + 1 = 2^32 — the claim's unbounded allocation law fails once the
u32 counter wraps. -/
theorem save_alloc_wraps_at_u32_max :
    tableKeys overflowPre.saves = descKeys (U32MOD - 1) ∧
    listMax? (tableKeys overflowPre.saves) = some (U32MOD - 1) ∧
    allocId overflowPre.saves = 0 ∧
    (U32MOD - 1) + 1 ≠ 0 ∧
    tableGet ((saveStep overflowPre 0 ["s.dat"] true).1).saves 0 =
      some ["s.dat"] := by
  have hkeys : tableKeys overflowPre.saves = descKeys (U32MOD - 1) := by
    have hlen : (List.replicate (U32MOD - 1) (["s.dat"] : FsPath)).length =
        U32MOD - 1 := List.length_replicate _ _
    have h := run_keys (List.replicate (U32MOD - 1) ["s.dat"]) emptyState 0
      rfl (by rw [Nat.zero_add, hlen]; norm_num [U32MOD])
    rw [Nat.zero_add, hlen] at h
    exact h
  have e : U32MOD - 1 = (U32MOD - 2) + 1 := by norm_num [U32MOD]
  have hmax : listMax? (tableKeys overflowPre.saves) = some (U32MOD - 1) := by
    rw [hkeys, e]
    exact listMax?_descKeys (U32MOD - 2)
  have halloc : allocId overflowPre.saves = 0 := by
    rw [allocId_of_max hmax]
    norm_num [U32MOD]
  refine ⟨hkeys, hmax, halloc, by norm_num [U32MOD], ?_⟩
  rw [saveStep_zero_saves, halloc]
  exact tableGet_insert_self _ 0 _

/-- Claim C2 (amended: for runs of fewer than 2^32 requests, below the
documented u32 wrap): starting from an empty slot table, every sequence
of N < 2^32 successful Save(0) requests allocates, at each step k, the id
k + 1 = (current maximum existing id) + 1 (or 1 on the empty table,
where the maximum is none); that id is previously unused, the allocated
ids are strictly increasing, and after the N requests the key set is
exactly {1, ..., N}, of size N, without duplicates. -/
theorem saveZero_run_allocates_fresh_ids (s : SaveState) (files : List FsPath)
    (h0 : s.saves = []) (hlen : files.length < U32MOD) :
    tableKeys (saveZeroRun s files).saves = descKeys files.length ∧
    (tableKeys (saveZeroRun s files).saves).length = files.length ∧
    (tableKeys (saveZeroRun s files).saves).Nodup ∧
    ∀ k, k < files.length →
      listMax? (tableKeys (saveZeroRun s (files.take k)).saves) =
        (if k = 0 then none else some k) ∧
      allocId (saveZeroRun s (files.take k)).saves = k + 1 ∧
      tableGet (saveZeroRun s (files.take k)).saves (k + 1) = none := by
  have hk0 : tableKeys s.saves = descKeys 0 := by rw [h0]; rfl
  have hfull := run_keys files s 0 hk0 (by omega)
  rw [Nat.zero_add] at hfull
  refine ⟨hfull, by rw [hfull, descKeys_length], by rw [hfull]; exact descKeys_nodup _, ?_⟩
  intro k hklt
  have htake : (files.take k).length = k := by
    rw [List.length_take]
    omega
  have hkeysk := run_keys (files.take k) s 0 hk0 (by rw [htake]; omega)
  rw [Nat.zero_add, htake] at hkeysk
  refine ⟨?_, allocId_descKeys hkeysk (by omega), ?_⟩
  · rw [hkeysk]
    cases k with
    | zero => rfl
    | succ j => simp [listMax?_descKeys j]
  · apply tableGet_eq_none
    rw [hkeysk]
    intro hmem
    have := descKeys_le hmem
    omega

/-- Claim C2 witness: a concrete two-request run from the empty table. -/
theorem saveZero_run_witness :
    tableKeys (saveZeroRun emptyState [["a.dat"], ["b.dat"]]).saves = descKeys 2 ∧
    allocId (saveZeroRun emptyState ([["a.dat"], ["b.dat"]].take 1)).saves = 2 ∧
    tableGet (saveZeroRun emptyState ([["a.dat"], ["b.dat"]].take 1)).saves 2 = none := by
  have h := saveZero_run_allocates_fresh_ids emptyState [["a.dat"], ["b.dat"]]
    rfl (by norm_num [U32MOD])
  exact ⟨h.1, (h.2.2.2 1 (by norm_num)).2.1, (h.2.2.2 1 (by norm_num)).2.2⟩

/-- Claim C3: when the encode/write step of a Save(id) request fails
(either branch, id = 0 or id ≠ 0), the whole state — slot table,
last_saved, current_save — is returned unchanged and no notification is
emitted; the error is only reported (logged). -/
theorem save_write_failure_is_noop (s : SaveState) (id : Nat) (f : FsPath) :
    saveStep s id f false = (s, false) := by
  unfold saveStep
  by_cases h : id = 0
  · rw [if_pos h]
    rfl
  · rw [if_neg h]
    cases tableGet s.saves id with
    | none => rfl
    | some p => rfl

/-- Claim C4: a Delete(id) request with id in the slot table whose file
removal succeeds removes id from the table, sets current_save to 0
unconditionally, and sets last_saved to 0 exactly when it equaled id. -/
theorem delete_success_updates (s : SaveState) (id : Nat) (p : FsPath)
    (h : tableGet s.saves id = some p) :
    tableGet (deleteStep s id true).saves id = none ∧
    (deleteStep s id true).current_save = 0 ∧
    (deleteStep s id true).last_saved =
      (if s.last_saved = id then 0 else s.last_saved) := by
  unfold deleteStep
  rw [h]
  exact ⟨tableGet_remove_self s.saves id, rfl, rfl⟩

/-- Claim C4 witness: deleting slot 7 of a two-slot table with both
pointers at 7. -/
theorem delete_success_witness :
    tableGet (deleteStep st4 7 true).saves 7 = none ∧
    (deleteStep st4 7 true).current_save = 0 ∧
    (deleteStep st4 7 true).last_saved =
      (if st4.last_saved = 7 then 0 else st4.last_saved) :=
  delete_success_updates st4 7 ["b.dat"] (by decide)

/-- Claim C5: a Save request emits GameSettingChanged exactly when
id = 0 and the encode/write step succeeds; and a successful Save(id)
with id ≠ 0 mapped in the table sets last_saved and current_save to id,
leaves the slot table itself unchanged, and emits no notification. -/
theorem save_notify_iff_new_slot (s : SaveState) (id : Nat) (f : FsPath) (ok : Bool) :
    ((saveStep s id f ok).2 = true ↔ id = 0 ∧ ok = true) ∧
    (∀ p, id ≠ 0 → tableGet s.saves id = some p →
      saveStep s id f true =
        ({ s with last_saved := id, current_save := id }, false)) := by
  constructor
  · unfold saveStep
    by_cases h : id = 0
    · rw [if_pos h]
      cases ok with
      | true => simp [h]
      | false => simp [h]
    · rw [if_neg h]
      cases tableGet s.saves id with
      | none => simp [h]
      | some p => cases ok <;> simp [h]
  · intro p hne hget
    unfold saveStep
    rw [if_neg hne, hget]
    rfl

/-- Claim C5 witness: a re-save of existing slot 5 (no notification,
pointers updated, table untouched) and a fresh Save(0) (notification). -/
theorem save_notify_witness :
    saveStep st5 5 ["f.dat"] true =
      ({ st5 with last_saved := 5, current_save := 5 }, false) ∧
    (saveStep st5 0 ["f.dat"] true).2 = true := by
  have h5 := save_notify_iff_new_slot st5 5 ["f.dat"] true
  have h0 := save_notify_iff_new_slot st5 0 ["f.dat"] true
  exact ⟨h5.2 ["p.dat"] (by decide) (by decide), h0.1.mpr ⟨rfl, rfl⟩⟩

/-- Claim C6 (counterexample): the claim's "current_save = id after the
request iff the load succeeded" fails when current_save already equals id
before a failing load: with slot 5 present, current_save = 5, and a
failing Load(5) (loadOk = false), the pointer still reads 5 afterwards
although the load did not succeed, so the instance of the claimed iff
(`current_save = 5 ↔ False`) is false. -/
theorem load_pointer_stale_breaks_iff :
    tableGet cex6.saves 5 = some ["p.dat"] ∧
    loadStep cex6 5 false = cex6 ∧
    (loadStep cex6 5 false).current_save = 5 ∧
    ¬(((loadStep cex6 5 false).current_save = 5) ↔ False) := by
  refine ⟨rfl, rfl, rfl, ?_⟩
  intro hiff
  exact hiff.mp rfl

/-- Claim C6 (amended): for a Load(id) with id present in the slot table,
after the request current_save equals id iff the load succeeded OR
current_save already equaled id before the call; in particular on success
current_save = id, and on any load failure the whole state (hence
current_save) keeps its pre-call value. -/
theorem load_pointer_success_or_stale (s : SaveState) (id : Nat) (p : FsPath)
    (ok : Bool) (h : tableGet s.saves id = some p) :
    ((loadStep s id ok).current_save = id ↔ (ok = true ∨ s.current_save = id)) ∧
    (ok = false → loadStep s id ok = s) := by
  unfold loadStep
  rw [h]
  cases ok with
  | true => simp
  | false => simp

/-- Claim C6 witness: slot 5 present; a successful load sets the pointer,
a failing load leaves the state untouched. -/
theorem load_pointer_witness :
    (loadStep st5 5 true).current_save = 5 ∧ loadStep st5 5 false = st5 := by
  have h := load_pointer_success_or_stale st5 5 ["p.dat"] true rfl
  have h' := load_pointer_success_or_stale st5 5 ["p.dat"] false rfl
  exact ⟨h.1.mpr (Or.inl rfl), h'.2 rfl⟩

/-- Claim C7: a Save(id) request with id ≠ 0 and id not a key of the slot
table is a no-op: the state (slot table, last_saved, current_save) is
returned unchanged and no notification is emitted, whatever the outcome
of the (never attempted) write. -/
theorem save_unknown_id_noop (s : SaveState) (id : Nat) (f : FsPath) (ok : Bool)
    (h1 : id ≠ 0) (h2 : tableGet s.saves id = none) :
    saveStep s id f ok = (s, false) := by
  unfold saveStep
  rw [if_neg h1, h2]

/-- Claim C7 witness: Save(3) on a table holding only slot 5. -/
theorem save_unknown_id_witness : saveStep st5 3 ["f.dat"] true = (st5, false) :=
  save_unknown_id_noop st5 3 ["f.dat"] true (by decide) rfl

/-- Claim C8: for every state value the encode pipeline accepts
(serialize, then encrypt with the fixed key), decoding the produced blob
(decrypt, then deserialize) yields a value equal to the original state —
given that the black-box serializer and cipher invert each other, as the
spec stipulates for them. -/
theorem pipeline_round_trip {S B : Type} (c : Codec S B)
    (hser : ∀ s b, c.ser s = some b → c.deser b = some s)
    (hencr : ∀ b e, c.encr b = some e → c.decr e = some b)
    (s : S) (e : B) (henc : save_encode c s = some e) :
    load_decode c e = some s := by
  unfold save_encode at henc
  unfold load_decode
  cases hs : c.ser s with
  | none => rw [hs] at henc; simp at henc
  | some b =>
    rw [hs] at henc
    simp only [Option.some_bind] at henc
    rw [hencr b e henc]
    simp only [Option.some_bind]
    exact hser s b hs

/-- Claim C8 witness: the concrete singleton-list/reverse codec round-trips
the value 7. -/
theorem pipeline_round_trip_witness :
    save_encode natCodec 7 = some [7] ∧ load_decode natCodec [7] = some 7 := by
  constructor
  · rfl
  · exact pipeline_round_trip natCodec
      (fun s b h => by cases h; rfl)
      (fun b e h => by cases h; simp [natCodec])
      7 [7] rfl

/-- Claim C9: at startup the settings record is the default; if reading or
parsing the settings file fails (including a missing file) the record is
left at that default and no GameSettingLoaded notification is emitted
(the failure is only logged — `load_config` is total, so no panic);
the notification is emitted exactly when the load succeeded. -/
theorem load_config_failure_keeps_default {T : Type} (d : T) (r : Option T) :
    (r = none → load_config d r = (d, false)) ∧
    ((load_config d r).2 = true ↔ ∃ v, r = some v) ∧
    (∀ v, r = some v → load_config d r = (v, true)) := by
  refine ⟨fun h => by rw [h]; rfl, ?_, fun v h => by rw [h]; rfl⟩
  cases r with
  | none => simp [load_config]
  | some v => simp [load_config]

/-- Claim C9 witness: a missing/unparsable file keeps the default 0 and
emits nothing; a parsed file yields the value and the notification. -/
theorem load_config_witness :
    load_config (0 : Nat) none = (0, false) ∧
    load_config (0 : Nat) (some 3) = (3, true) := by
  have h1 := load_config_failure_keeps_default (0 : Nat) (none : Option Nat)
  have h2 := load_config_failure_keeps_default (0 : Nat) (some 3)
  exact ⟨h1.1 rfl, h2.2.2 3 rfl⟩

/-- Claim C10 (counterexample): a table whose only key is
u32::MAX = 4294967295 satisfies "all keys > 0", yet a successful Save(0)
allocates `(4294967295 + 1) % 2^32 = 0` and inserts key 0, breaking the
invariant — the documented unhandled u32 boundary. -/
theorem key_invariant_breaks_at_u32_max :
    keysPos cex10.saves = true ∧
    tableGet ((saveStep cex10 0 ["new.dat"] true).1).saves 0 =
      some ["new.dat"] ∧
    keysPos ((saveStep cex10 0 ["new.dat"] true).1).saves = false := by
  have hmax : listMax? (tableKeys cex10.saves) = some 4294967295 := rfl
  have halloc : allocId cex10.saves = 0 := by
    rw [allocId_of_max hmax]
    norm_num [U32MOD]
  refine ⟨rfl, ?_, ?_⟩
  · rw [saveStep_zero_saves, halloc]
    exact tableGet_insert_self _ 0 _
  · rw [saveStep_zero_saves, halloc]
    rfl

/-- Claim C10 (amended: below the documented u32 boundary): for every
slot table whose keys are all positive and all below u32::MAX, every
operation — Save (either branch, success or failure), Load, LoadRecent,
Delete — leaves a table whose keys are all positive: no operation inserts
key 0. -/
theorem ops_preserve_positive_keys (s : SaveState)
    (h1 : keysPos s.saves = true) (h2 : keysBounded s.saves = true) :
    ∀ id f ok,
      keysPos ((saveStep s id f ok).1).saves = true ∧
      keysPos (loadStep s id ok).saves = true ∧
      keysPos (loadRecentStep s ok).saves = true ∧
      keysPos (deleteStep s id ok).saves = true := by
  intro id f ok
  refine ⟨?_, ?_, ?_, ?_⟩
  · unfold saveStep
    by_cases hid : id = 0
    · rw [if_pos hid]
      cases ok with
      | false => exact h1
      | true =>
        show keysPos (tableInsert s.saves (allocId s.saves) f) = true
        rw [keysPos_iff]
        intro k hk
        rw [tableInsert, tableKeys_cons] at hk
        rcases List.mem_cons.mp hk with h | h
        · exact h ▸ allocId_pos h2
        · exact keysPos_iff.mp h1 k (tableKeys_remove_sub h)
    · rw [if_neg hid]
      cases tableGet s.saves id with
      | none => exact h1
      | some p =>
        cases ok with
        | true => exact h1
        | false => exact h1
  · rw [loadStep_saves]; exact h1
  · rw [loadRecentStep_saves]; exact h1
  · unfold deleteStep
    cases tableGet s.saves id with
    | none => exact h1
    | some p =>
      cases ok with
      | true => exact keysPos_remove h1
      | false => exact h1

/-- Claim C10 witness: each operation applied to a one-slot table with
key 3 keeps all keys positive. -/
theorem ops_preserve_positive_keys_witness :
    keysPos ((saveStep st10 0 ["n.dat"] true).1).saves = true ∧
    keysPos (loadStep st10 3 true).saves = true ∧
    keysPos (loadRecentStep st10 true).saves = true ∧
    keysPos (deleteStep st10 3 true).saves = true := by
  have h := ops_preserve_positive_keys st10 (by decide) (by decide)
  exact ⟨(h 0 ["n.dat"] true).1, (h 3 ["n.dat"] true).2.1,
    (h 3 ["n.dat"] true).2.2.1, (h 3 ["n.dat"] true).2.2.2⟩
